import Mathlib

set_option autoImplicit false

/-!
# FlashpointGameServer: the request router of `main.go`

A shallow embedding of `setContentType` and `handleRequest` from `main.go`,
together with the Go standard-library primitives they call
(`filepath.Ext`, `strings.TrimSpace`, `strings.ToLower`, `strings.Split`,
`http.Header.Get` / `Set`), followed by theorems about them.

Go strings are modelled by `String`.  The library routines that scan bytes
only look for ASCII bytes (`.`, `/`, `\`, `:`), which never occur inside a
multi-byte UTF-8 sequence, so scanning characters gives the same result on
well-formed text.
-/

namespace FlashpointGameServer

/-! ## Standard-library primitives -/

/-- The two facts about the host that the Go library routines depend on:
whether `filepath` is the Windows flavour (where the backslash separates path
elements too), and the case table `unicode.ToLower` consults for characters
outside ASCII. -/
structure Runtime where
  windows : Bool
  lowerTable : Char → Char

/-- Go `os.IsPathSeparator`: the slash, and on Windows also the backslash. -/
def isPathSeparator (rt : Runtime) (c : Char) : Bool :=
  c == '/' || (rt.windows && c == Char.ofNat 92)

/-- The loop of Go `filepath.Ext`, walking from the last character towards
the first: `before` holds the characters not yet visited (last one first),
`suffix` the characters already passed.  It stops with no extension at a
path separator and returns the suffix starting at the first dot it meets. -/
def extScan (rt : Runtime) : List Char → List Char → List Char
  | [], _ => []
  | c :: before, suffix =>
    if isPathSeparator rt c then []
    else if c = '.' then c :: suffix
    else extScan rt before (c :: suffix)

/-- Go `filepath.Ext`: the suffix beginning at the final dot of the final
path element, or the empty string when that element has no dot. -/
def Ext (rt : Runtime) (path : String) : String :=
  ⟨extScan rt path.data.reverse []⟩

/-- Go `unicode.IsSpace`: the characters with the White_Space property. -/
def isSpace (c : Char) : Bool :=
  let n := c.toNat
  (9 ≤ n && n ≤ 13) || n == 32 || n == 133 || n == 160 || n == 5760 ||
  (8192 ≤ n && n ≤ 8202) || n == 8232 || n == 8233 || n == 8239 ||
  n == 8287 || n == 12288

/-- Go `strings.TrimSpace`: leading and trailing white space removed. -/
def TrimSpace (s : String) : String :=
  ⟨((s.data.dropWhile isSpace).reverse.dropWhile isSpace).reverse⟩

/-- Go `unicode.ToLower` on one character: `A`..`Z` are shifted to `a`..`z`,
the other ASCII characters are kept, and the rest goes through the case
table. -/
def lowerRune (rt : Runtime) (c : Char) : Char :=
  if c.toNat < 128 then
    if 65 ≤ c.toNat ∧ c.toNat ≤ 90 then Char.ofNat (c.toNat + 32) else c
  else rt.lowerTable c

/-- Go `strings.ToLower`. -/
def ToLower (rt : Runtime) (s : String) : String :=
  ⟨s.data.map (lowerRune rt)⟩

/-- Go `strings.Split` for a one-character separator, on character lists.
The result always has at least one element. -/
def splitChars (sep : Char) : List Char → List (List Char)
  | [] => [[]]
  | c :: cs =>
    if c = sep then [] :: splitChars sep cs
    else
      match splitChars sep cs with
      | [] => [[c]]
      | piece :: pieces => (c :: piece) :: pieces

/-- Go `strings.Split(s, sep)` with a one-character separator. -/
def Split (s : String) (sep : Char) : List String :=
  (splitChars sep s.data).map String.mk

/-- The Go slice expression `s[1:]` on a string whose first character is one
byte long. -/
def sliceFrom1 (s : String) : String :=
  ⟨s.data.drop 1⟩

/-- Go `len(s)` for the strings it is applied to here: an extension starts
with a dot, so it is longer than one byte exactly when it has more than one
character. -/
def len (s : String) : Nat :=
  s.data.length

/-! ## HTTP headers -/

/-- Go `textproto.validHeaderFieldByte`: the token characters of RFC 7230. -/
def validHeaderFieldByte (c : Char) : Bool :=
  let n := c.toNat
  (48 ≤ n && n ≤ 57) || (65 ≤ n && n ≤ 90) || (97 ≤ n && n ≤ 122) ||
  [33, 35, 36, 37, 38, 39, 42, 43, 45, 46, 94, 95, 96, 124, 126].contains n

/-- The rewriting loop of Go `textproto.canonicalMIMEHeaderKey`: the first
letter and every letter after a hyphen is upper-cased, the others are
lower-cased. -/
def canonChars : Bool → List Char → List Char
  | _, [] => []
  | upper, c :: cs =>
    let n := c.toNat
    let c1 :=
      if upper && (97 ≤ n && n ≤ 122) then Char.ofNat (n - 32)
      else if !upper && (65 ≤ n && n ≤ 90) then Char.ofNat (n + 32)
      else c
    c1 :: canonChars (c1 == '-') cs

/-- Go `textproto.CanonicalMIMEHeaderKey`: a key made of token characters is
canonicalised, any other key is returned unchanged. -/
def CanonicalMIMEHeaderKey (s : String) : String :=
  if s.data.all validHeaderFieldByte then ⟨canonChars true s.data⟩ else s

/-- Go `http.Header`, a `map[string][]string`: each key is absent or carries
a list of values. -/
@[ext] structure Header where
  values : String → Option (List String)

/-- Go `Header.Get`: the first value under the canonical form of the key,
or the empty string. -/
def Header.Get (h : Header) (key : String) : String :=
  match h.values (CanonicalMIMEHeaderKey key) with
  | some (v :: _) => v
  | _ => ""

/-- Go `Header.Set`: the canonical form of the key is bound to the single
value, replacing whatever was there. -/
def Header.Set (h : Header) (key value : String) : Header :=
  ⟨fun k => if k = CanonicalMIMEHeaderKey key then some [value] else h.values k⟩

/-- The header map with no entries. -/
def Header.empty : Header :=
  ⟨fun _ => none⟩

/-! ## Data model -/

/-- The fields of `ServerSettings` read by `setContentType` and
`handleRequest`. -/
structure ServerSettings where
  ServerHTTPPort : String
  ExtMimeTypes : String → Option String
  ExtGzippeddTypes : List String
  HandleLegacyRequests : Bool
  ExternalLegacyPort : String

/-- Go map indexing `serverSettings.ExtMimeTypes[k]`: the zero value (the
empty string) for a missing key. -/
def ServerSettings.mime (s : ServerSettings) (k : String) : String :=
  (s.ExtMimeTypes k).getD ""

/-- The fields of Go `url.URL` the program sets or reads. -/
structure URL where
  Scheme : String
  Host : String
  Path : String
  RawQuery : String

/-- The fields of Go `http.Request` the program sets or reads.  `Body` is the
reader: the bytes not yet consumed from it. -/
structure Request where
  Method : String
  URL : URL
  Header : Header
  Body : List UInt8

/-- The fields of Go `http.Response` the program sets or reads. -/
structure Response where
  StatusCode : Int
  Header : Header
  Body : List UInt8

/-! ## `setContentType` -/

/-- The loop over `serverSettings.ExtGzippeddTypes`: at the first element
equal to `e` the encoding header is set and the loop ends. -/
def gzipScan (e : String) (h : Header) : List String → Header
  | [] => h
  | element :: rest =>
    if element = e then h.Set "Content-Encoding" "gzip" else gzipScan e h rest

/-- The function `setContentType` of `main.go`.  A nil request or response is
`none`; the header map of the response is updated in place, which is the
header of the returned response here.  The pair threaded through the steps is
the header map and the local variable `mime`. -/
def setContentType (rt : Runtime) (s : ServerSettings) (r : Option Request)
    (resp : Option Response) : Option Response :=
  match r, resp with
  | some r, some resp =>
    let rext := ToLower rt (Ext rt (resp.Header.Get "ZIPSVR_FILENAME"))
    let ext := ToLower rt (Ext rt (TrimSpace r.URL.Path))
    let st0 : Header × String := (resp.Header, "")
    let st1 : Header × String :=
      if ext ≠ "" then
        let h := st0.1.Set "Content-Type" (s.mime (sliceFrom1 ext))
        let mime := s.mime (sliceFrom1 ext)
        if mime ≠ "" ∧ len ext > 1 then
          (gzipScan (sliceFrom1 ext) (h.Set "Content-Type" mime) s.ExtGzippeddTypes, mime)
        else (h, mime)
      else st0
    let st2 : Header × String :=
      if st1.2 = "" ∧ rext ≠ "" then
        let h := st1.1.Set "Content-Type" (s.mime (sliceFrom1 rext))
        let mime := s.mime (sliceFrom1 rext)
        if mime ≠ "" ∧ len rext > 1 then
          (gzipScan (sliceFrom1 rext) (h.Set "Content-Type" mime) s.ExtGzippeddTypes, mime)
        else (h, mime)
      else st1
    let h3 := if st2.2 ≠ "" then st2.1.Set "Content-Type" st2.2 else st2.1
    some { resp with Header := h3 }
  | _, _ => resp

/-! ## `handleRequest` -/

/-- The collaborators `handleRequest` calls: library constructors and network
or in-process services outside `main.go`.  An absent (nil) result is `none`.
None of them writes to the header map of the request it is given. -/
structure World where
  /-- The call `http.NewRequest(method, url.String(), body)`: `none` when it
  reports an error, in which case the request it returns is nil. -/
  newRequest : String → URL → List UInt8 → Option Request
  /-- The call `client.Do` on the plain client, towards the archive service:
  the response it returns, `none` when that response is nil. -/
  archiveDo : Request → Option Response
  /-- The call `ServeLegacy(resRecorder, legacyRequest)` followed by
  `resRecorder.Result()`. -/
  ServeLegacy : Request → Response
  /-- The call `client.Do` on the client with the custom transport, towards
  the external legacy server: `none` when the error it returns is not nil. -/
  externalDo : Request → Option Response

/-- One call to a serving tier, with the request handed to it. -/
inductive Event where
  | archive (req : Request)
  | internalLegacy (req : Request)
  | externalLegacy (req : Request)

/-- A nil pointer dereference: of the request `http.NewRequest` returned, or
of the response the archive call returned. -/
inductive Fault where
  | nilRequest
  | nilResponse
  deriving DecidableEq, Repr

/-- What `handleRequest` returns, with the calls it made in order. -/
structure Outcome where
  request : Request
  response : Response
  trace : List Event

/-- The archive call: what `client.Do` returns, and the trace entry of the
call. -/
def World.callArchive (w : World) (req : Request) : Option Response × List Event :=
  (w.archiveDo req, [Event.archive req])

/-- The in-process legacy dispatch: the recorded response, and the trace
entry of the call. -/
def World.callServeLegacy (w : World) (req : Request) : Response × List Event :=
  (w.ServeLegacy req, [Event.internalLegacy req])

/-- The call to the external legacy server: what `client.Do` returns, and the
trace entry of the call. -/
def World.callExternal (w : World) (req : Request) : Option Response × List Event :=
  (w.externalDo req, [Event.externalLegacy req])

/-- The first statement of `handleRequest`:
`strings.Split(r.URL.Host, ":")[0]`. -/
def stripPort (host : String) : String :=
  (Split host ':').headD ""

/-- The request literal `gamezipRequest` of `handleRequest`, built from the
inbound request after its host was rewritten, with the body replaced by a
reader over `contents`. -/
def gamezipRequest (s : ServerSettings) (r : Request) (contents : List UInt8) : Request :=
  { Method := r.Method
    URL :=
      { Scheme := "http"
        Host := "127.0.0.1:" ++ s.ServerHTTPPort
        Path := "content/" ++ r.URL.Host ++ r.URL.Path
        RawQuery := r.URL.RawQuery }
    Header := r.Header
    Body := contents }

/-- The request literal `legacyRequest` of `handleRequest`, with the body
replaced by a reader over `contents`. -/
def legacyRequest (r : Request) (contents : List UInt8) : Request :=
  { Method := r.Method
    URL :=
      { Scheme := "http"
        Host := r.URL.Host
        Path := r.URL.Path
        RawQuery := r.URL.RawQuery }
    Header := r.Header
    Body := contents }

/-- The last statements of `handleRequest` (under "Add extra headers"), on
the header map of the response. -/
def finalizeHeaders (rt : Runtime) (r : Request) (h : Header) : Header :=
  let h1 := h.Set "Access-Control-Allow-Origin" "*"
  if ToLower rt (r.Header.Get "Connection") = "keep-alive" then
    (h1.Set "Connection" "Keep-Alive").Set "Keep-Alive" "timeout=5; max=100"
  else h1

/-- The block of `handleRequest` under "Check Legacy": the response that
stands after it, and the legacy calls made.  Below status 400 nothing is
called.  Otherwise the legacy request is built and handed to the in-process
dispatch when `HandleLegacyRequests` is set, and to the external server when
it is not; the response of the external server replaces the archive response
only when the call returned no error. -/
def checkLegacy (w : World) (s : ServerSettings) (r : Request) (contents : List UInt8)
    (proxyResp : Response) : Response × List Event :=
  if proxyResp.StatusCode ≥ 400 then
    let legacyReq := legacyRequest r contents
    if s.HandleLegacyRequests then
      w.callServeLegacy legacyReq
    else
      let call := w.callExternal legacyReq
      match call.1 with
      | some legacyResp => (legacyResp, call.2)
      | none => (proxyResp, call.2)
  else (proxyResp, [])

/-- The inbound request once the first statements of `handleRequest` have
run: the host cut at its first colon and the body read to its end. -/
def rewritten (r : Request) : Request :=
  { r with URL := { r.URL with Host := stripPort r.URL.Host }, Body := [] }

/-- The function `handleRequest` of `main.go`, without its log lines.  Reading
the body to its end leaves the inbound reader empty.  The error of
`http.NewRequest` is logged and the error of the archive call is dropped; the
code then goes on to dereference the nil request, respectively the nil
response, which is reported as a `Fault`. -/
def handleRequest (rt : Runtime) (w : World) (s : ServerSettings) (r : Request) :
    Except Fault Outcome :=
  let contents := r.Body
  let r2 := rewritten r
  let gz := gamezipRequest s r2 contents
  match w.newRequest gz.Method gz.URL gz.Body with
  | none => .error .nilRequest
  | some created =>
    let proxyReq : Request := { created with Header := gz.Header }
    let call := w.callArchive proxyReq
    match call.1 with
    | none => .error .nilResponse
    | some archiveResp =>
      let fallback := checkLegacy w s r2 contents archiveResp
      let typed := (setContentType rt s (some r2) (some fallback.1)).getD fallback.1
      let final : Response := { typed with Header := finalizeHeaders rt r2 typed.Header }
      .ok { request := r2, response := final, trace := call.2 ++ fallback.2 }

/-! ## Vocabulary of the statements -/

/-- The extension of the request path as `setContentType` computes it, dot
included: `strings.ToLower(filepath.Ext(strings.TrimSpace(r.URL.Path)))`. -/
def requestExt (rt : Runtime) (r : Request) : String :=
  ToLower rt (Ext rt (TrimSpace r.URL.Path))

/-- The extension of the archive file name as `setContentType` computes it,
dot included. -/
def archiveExt (rt : Runtime) (resp : Response) : String :=
  ToLower rt (Ext rt (resp.Header.Get "ZIPSVR_FILENAME"))

/-- The header map of the response once `setContentType` has run on a
request and a response that are both present. -/
def typedHeader (rt : Runtime) (s : ServerSettings) (r : Request) (resp : Response) : Header :=
  ((setContentType rt s (some r) (some resp)).getD resp).Header

/-- The header map `setContentType` leaves when the extension `ext` (dot
included) decided the MIME type. -/
def headerFor (s : ServerSettings) (ext : String) (h : Header) : Header :=
  let typed := h.Set "Content-Type" (s.mime (sliceFrom1 ext))
  let encoded :=
    if len ext > 1 then gzipScan (sliceFrom1 ext) typed s.ExtGzippeddTypes else typed
  encoded.Set "Content-Type" (s.mime (sliceFrom1 ext))

/-- Whether a trace entry is a call to a legacy tier. -/
def Event.isLegacy : Event → Bool
  | .archive _ => false
  | .internalLegacy _ => true
  | .externalLegacy _ => true

/-- Whether a trace entry is the in-process legacy dispatch. -/
def Event.isInternal : Event → Bool
  | .internalLegacy _ => true
  | _ => false

/-- Whether a trace entry is the call to the external legacy server. -/
def Event.isExternal : Event → Bool
  | .externalLegacy _ => true
  | _ => false

/-- The request carried by a trace entry. -/
def Event.req : Event → Request
  | .archive q => q
  | .internalLegacy q => q
  | .externalLegacy q => q

/-- The number of legacy fallback attempts in a trace. -/
def legacyAttempts (t : List Event) : Nat :=
  (t.filter Event.isLegacy).length

/-! ## Concrete inputs used by the examples -/

/-- A Unix host whose case table leaves characters outside ASCII alone. -/
def unixRuntime : Runtime :=
  ⟨false, id⟩

/-- Settings mapping `json` and `png`, with `svgz` the only pre-compressed
extension, and legacy requests sent to the external server. -/
def sampleSettings : ServerSettings :=
  { ServerHTTPPort := "22501"
    ExtMimeTypes := fun k =>
      if k = "json" then some "application/json"
      else if k = "png" then some "image/png"
      else if k = "svgz" then some "image/svg+xml"
      else none
    ExtGzippeddTypes := ["svgz"]
    HandleLegacyRequests := false
    ExternalLegacyPort := "22600" }

/-- A `GET` request for the given host and path, with no header and an empty
body. -/
def getRequest (host path : String) : Request :=
  { Method := "GET"
    URL := { Scheme := "http", Host := host, Path := path, RawQuery := "" }
    Header := Header.empty
    Body := [] }

/-- A response with the given status and a single header. -/
def responseWith (status : Int) (key value : String) : Response :=
  { StatusCode := status
    Header := Header.empty.Set key value
    Body := [] }

/-- The same settings with legacy requests dispatched in process. -/
def internalSettings : ServerSettings :=
  { sampleSettings with HandleLegacyRequests := true }

/-- A header map whose only entry is `Connection` with the two values `a`
and `b`. -/
def twoConnectionValues : Header :=
  ⟨fun k => if k = "Connection" then some ["a", "b"] else none⟩

/-- Collaborators where the archive answers every request with the given
status, the in-process legacy dispatch answers 200, and the external legacy
server cannot be reached.  `newRequest` answers as `http.NewRequest` does for
a method and a URL whose parts need no escaping: an empty method becomes
`GET`, and the path comes back with the slash that `URL.String` writes
between the host and a path that does not start with one. -/
def sampleWorld (status : Int) : World :=
  { newRequest := fun m u b =>
      some
        { Method := if m = "" then "GET" else m
          URL :=
            { u with
              Path :=
                if u.Path ≠ "" ∧ u.Path.data.head? ≠ some '/' ∧ u.Host ≠ "" then "/" ++ u.Path
                else u.Path }
          Header := Header.empty
          Body := b }
    archiveDo := fun _ => some (responseWith status "Server" "zipfs")
    ServeLegacy := fun _ => responseWith 200 "Server" "legacy"
    externalDo := fun _ => none }

/-- Collaborators where the archive service cannot be reached: the call
returns an error and no response. -/
def archiveDownWorld : World :=
  { sampleWorld 200 with archiveDo := fun _ => none }

/-- Collaborators where building the archive request fails. -/
def badRequestWorld : World :=
  { sampleWorld 200 with newRequest := fun _ _ _ => none }

theorem canonical_contentType :
    CanonicalMIMEHeaderKey "Content-Type" = "Content-Type" := by decide

theorem canonical_contentEncoding :
    CanonicalMIMEHeaderKey "Content-Encoding" = "Content-Encoding" := by decide

theorem canonical_allowOrigin :
    CanonicalMIMEHeaderKey "Access-Control-Allow-Origin" = "Access-Control-Allow-Origin" := by
  decide

theorem canonical_connection :
    CanonicalMIMEHeaderKey "Connection" = "Connection" := by decide

theorem canonical_keepAlive :
    CanonicalMIMEHeaderKey "Keep-Alive" = "Keep-Alive" := by decide

theorem Header.get_set_same (h : Header) (key value : String) :
    (h.Set key value).Get key = value := by
  simp [Header.Get, Header.Set]

theorem Header.get_set_other (h : Header) (key key2 value : String)
    (hk : CanonicalMIMEHeaderKey key2 ≠ CanonicalMIMEHeaderKey key) :
    (h.Set key value).Get key2 = h.Get key2 := by
  simp [Header.Get, Header.Set, hk]

theorem Header.values_set_same (h : Header) (key value : String) :
    (h.Set key value).values (CanonicalMIMEHeaderKey key) = some [value] := by
  simp [Header.Set]

theorem Header.set_set (h : Header) (key v1 v2 : String) :
    (h.Set key v1).Set key v2 = h.Set key v2 := by
  ext k : 2
  by_cases hk : k = CanonicalMIMEHeaderKey key <;> simp [Header.Set, hk]

theorem gzipScan_eq (e : String) (h : Header) (l : List String) :
    gzipScan e h l = if e ∈ l then h.Set "Content-Encoding" "gzip" else h := by
  induction l with
  | nil => simp [gzipScan]
  | cons a l ih =>
    by_cases ha : a = e
    · simp [gzipScan, ha]
    · have hne : ¬ e = a := fun x => ha x.symm
      simp [gzipScan, ha, hne, ih]

/-! ## Lemmas on extensions -/

theorem sliceFrom1_ne_empty {s : String} (h : sliceFrom1 s ≠ "") :
    s ≠ "" ∧ len s > 1 := by
  rcases s with ⟨l⟩
  rcases l with _ | ⟨a, _ | ⟨b, l⟩⟩
  · exact absurd rfl h
  · exact absurd rfl h
  · constructor
    · intro hs
      have := congrArg String.data hs
      simp at this
    · simp [len]

theorem extScan_dot (rt : Runtime) (before suffix : List Char) :
    extScan rt before suffix = [] ∨ ∃ tl, extScan rt before suffix = '.' :: tl := by
  induction before generalizing suffix with
  | nil => exact Or.inl rfl
  | cons c cs ih =>
    simp only [extScan]
    split_ifs with h1 h2
    · exact Or.inl rfl
    · exact Or.inr ⟨suffix, by rw [h2]⟩
    · exact ih (c :: suffix)

/-- An extension as `setContentType` computes it is empty or starts with the
dot, a one-byte character that lowercasing keeps: `ext[1:]` is the extension
without its dot. -/
theorem lowered_ext_dot (rt : Runtime) (path : String) :
    ToLower rt (Ext rt path) = "" ∨
      ∃ tl, (ToLower rt (Ext rt path)).data = '.' :: tl ∧
        (sliceFrom1 (ToLower rt (Ext rt path))).data = tl := by
  rcases extScan_dot rt path.data.reverse [] with h | ⟨tl, h⟩
  · left
    simp [ToLower, Ext, h]
  · right
    refine ⟨tl.map (lowerRune rt), ?_, ?_⟩
    · have hdot : lowerRune rt '.' = '.' := by simp [lowerRune]
      simp [ToLower, Ext, h, hdot]
    · simp [ToLower, Ext, h, sliceFrom1]

/-- The outcome of `setContentType` when the request path has an extension
that maps to a MIME type: the header map and nothing else changes. -/
theorem setContentType_request_ext (rt : Runtime) (s : ServerSettings) (r : Request)
    (resp : Response) (hext : requestExt rt r ≠ "")
    (hmime : s.mime (sliceFrom1 (requestExt rt r)) ≠ "") :
    setContentType rt s (some r) (some resp) =
      some { resp with Header := headerFor s (requestExt rt r) resp.Header } := by
  unfold requestExt at hext hmime ⊢
  simp only [setContentType, headerFor]
  by_cases hl : len (ToLower rt (Ext rt (TrimSpace r.URL.Path))) > 1
  · simp [hext, hmime, hl, Header.set_set]
  · simp [hext, hmime, hl, Header.set_set]

theorem headerFor_contentType (s : ServerSettings) (ext : String) (h : Header) :
    (headerFor s ext h).Get "Content-Type" = s.mime (sliceFrom1 ext) := by
  simp [headerFor, Header.get_set_same]

theorem headerFor_contentEncoding (s : ServerSettings) (ext : String) (h : Header)
    (hl : len ext > 1) :
    (headerFor s ext h).Get "Content-Encoding" =
      if sliceFrom1 ext ∈ s.ExtGzippeddTypes then "gzip" else h.Get "Content-Encoding" := by
  have hne : CanonicalMIMEHeaderKey "Content-Encoding" ≠ CanonicalMIMEHeaderKey "Content-Type" := by
    decide
  simp only [headerFor, hl, if_true, gzipScan_eq]
  rw [Header.get_set_other _ _ _ _ hne]
  split
  · rw [Header.get_set_same]
  · rw [Header.get_set_other _ _ _ _ hne]

/-! ## Theorems on `setContentType` -/

/-- C1, as stated, fails: the request path `/a.json` has the mapped extension
`json`, which is not a pre-compressed extension, and a response that already
carries `Content-Encoding: gzip` still carries it afterwards. -/
theorem setContentType_gzip_iff_counterexample :
    sliceFrom1 (requestExt unixRuntime (getRequest "game.example" "/a.json")) = "json" ∧
    sampleSettings.ExtMimeTypes "json" = some "application/json" ∧
    (setContentType unixRuntime sampleSettings (some (getRequest "game.example" "/a.json"))
      (some (responseWith 200 "Content-Encoding" "gzip"))).map
        (fun x => x.Header.Get "Content-Encoding") = some "gzip" ∧
    "json" ∉ sampleSettings.ExtGzippeddTypes := by
  decide

/-- C1, amended: when the request-path extension (lowercased, dot stripped) is
non-empty and mapped to a non-empty MIME type `m`, the response afterwards has
the single Content-Type value `m`, and its Content-Encoding is `gzip` exactly
when the extension is a pre-compressed one or the response carried
`Content-Encoding: gzip` before the call. -/
theorem setContentType_request_extension (rt : Runtime) (s : ServerSettings) (r : Request)
    (resp : Response) (m : String)
    (hne : sliceFrom1 (requestExt rt r) ≠ "")
    (hkey : s.ExtMimeTypes (sliceFrom1 (requestExt rt r)) = some m)
    (hm : m ≠ "") :
    ∃ out, setContentType rt s (some r) (some resp) = some out ∧
      out.StatusCode = resp.StatusCode ∧ out.Body = resp.Body ∧
      out.Header.Get "Content-Type" = m ∧
      out.Header.values "Content-Type" = some [m] ∧
      (out.Header.Get "Content-Encoding" = "gzip" ↔
        (sliceFrom1 (requestExt rt r) ∈ s.ExtGzippeddTypes ∨
          resp.Header.Get "Content-Encoding" = "gzip")) := by
  obtain ⟨hext, hlen⟩ := sliceFrom1_ne_empty hne
  have hmime : s.mime (sliceFrom1 (requestExt rt r)) = m := by
    simp [ServerSettings.mime, hkey]
  refine ⟨_, setContentType_request_ext rt s r resp hext (by rw [hmime]; exact hm),
    rfl, rfl, ?_, ?_, ?_⟩
  · simp only [headerFor_contentType, hmime]
  · have := Header.values_set_same
      (if len (requestExt rt r) > 1 then
        gzipScan (sliceFrom1 (requestExt rt r))
          (resp.Header.Set "Content-Type" (s.mime (sliceFrom1 (requestExt rt r))))
          s.ExtGzippeddTypes
       else resp.Header.Set "Content-Type" (s.mime (sliceFrom1 (requestExt rt r))))
      "Content-Type" m
    rw [canonical_contentType] at this
    simpa [headerFor, hmime] using this
  · simp only [headerFor_contentEncoding s _ resp.Header hlen]
    by_cases hmem : sliceFrom1 (requestExt rt r) ∈ s.ExtGzippeddTypes <;> simp [hmem]

/-- C1, amended, at the path `/a.svgz` and a response without encoding. -/
theorem setContentType_request_extension_witness :
    sliceFrom1 (requestExt unixRuntime (getRequest "game.example" "/a.svgz")) ≠ "" ∧
    ∃ out, setContentType unixRuntime sampleSettings (some (getRequest "game.example" "/a.svgz"))
        (some (responseWith 200 "Server" "zipfs")) = some out ∧
      out.StatusCode = 200 ∧ out.Body = [] ∧
      out.Header.Get "Content-Type" = "image/svg+xml" ∧
      out.Header.values "Content-Type" = some ["image/svg+xml"] ∧
      (out.Header.Get "Content-Encoding" = "gzip" ↔
        (sliceFrom1 (requestExt unixRuntime (getRequest "game.example" "/a.svgz")) ∈
            sampleSettings.ExtGzippeddTypes ∨
          (responseWith 200 "Server" "zipfs").Header.Get "Content-Encoding" = "gzip")) :=
  ⟨by decide,
    setContentType_request_extension unixRuntime sampleSettings
      (getRequest "game.example" "/a.svgz") (responseWith 200 "Server" "zipfs")
      "image/svg+xml" (by decide) (by decide) (by decide)⟩

/-- C2: when the request path has an extension mapped to a non-empty MIME
type and the `ZIPSVR_FILENAME` header has an extension mapped to a non-empty
MIME type as well, the Content-Type afterwards is the one mapped from the
request-path extension. -/
theorem setContentType_request_path_precedes (rt : Runtime) (s : ServerSettings)
    (r : Request) (resp : Response)
    (hext : requestExt rt r ≠ "")
    (hmime : s.mime (sliceFrom1 (requestExt rt r)) ≠ "")
    (_hrext : archiveExt rt resp ≠ "")
    (_hrmime : s.mime (sliceFrom1 (archiveExt rt resp)) ≠ "") :
    ∃ out, setContentType rt s (some r) (some resp) = some out ∧
      out.Header.Get "Content-Type" = s.mime (sliceFrom1 (requestExt rt r)) ∧
      out.Header.values "Content-Type" = some [s.mime (sliceFrom1 (requestExt rt r))] := by
  refine ⟨_, setContentType_request_ext rt s r resp hext hmime, ?_, ?_⟩
  · simp only [headerFor_contentType]
  · simp [headerFor, Header.Set, canonical_contentType]

/-- C2 at the path `/a.json` with the archive file name `b.png`: the
Content-Type is the one of `json`. -/
theorem setContentType_request_path_precedes_witness :
    requestExt unixRuntime (getRequest "game.example" "/a.json") ≠ "" ∧
    sampleSettings.mime (sliceFrom1 (archiveExt unixRuntime
      (responseWith 200 "ZIPSVR_FILENAME" "b.png"))) = "image/png" ∧
    ∃ out, setContentType unixRuntime sampleSettings (some (getRequest "game.example" "/a.json"))
        (some (responseWith 200 "ZIPSVR_FILENAME" "b.png")) = some out ∧
      out.Header.Get "Content-Type" =
        sampleSettings.mime (sliceFrom1 (requestExt unixRuntime
          (getRequest "game.example" "/a.json"))) ∧
      out.Header.values "Content-Type" =
        some [sampleSettings.mime (sliceFrom1 (requestExt unixRuntime
          (getRequest "game.example" "/a.json")))] :=
  ⟨by decide, by decide,
    setContentType_request_path_precedes unixRuntime sampleSettings
      (getRequest "game.example" "/a.json") (responseWith 200 "ZIPSVR_FILENAME" "b.png")
      (by decide) (by decide) (by decide) (by decide)⟩

/-- C3 fails on the code: for the path `/a.xyz`, whose extension is not
mapped, and a response without `ZIPSVR_FILENAME` that carries
`Content-Type: text/html`, `setContentType` overwrites the header with the
empty string. -/
theorem setContentType_blanks_unmapped :
    sampleSettings.mime (sliceFrom1 (requestExt unixRuntime
      (getRequest "game.example" "/a.xyz"))) = "" ∧
    archiveExt unixRuntime (responseWith 200 "Content-Type" "text/html") = "" ∧
    (responseWith 200 "Content-Type" "text/html").Header.values "Content-Type" =
      some ["text/html"] ∧
    (setContentType unixRuntime sampleSettings (some (getRequest "game.example" "/a.xyz"))
      (some (responseWith 200 "Content-Type" "text/html"))).map
        (fun x => x.Header.values "Content-Type") = some (some [""]) := by
  decide

/-! ## Lemmas on `handleRequest` -/

/-- When the archive request could be built and the archive returned a
response, `handleRequest` returns, and this is what it returns. -/
theorem handleRequest_ok (rt : Runtime) (w : World) (s : ServerSettings) (r : Request)
    (created : Request) (archiveResp : Response)
    (hnew : w.newRequest r.Method (gamezipRequest s (rewritten r) r.Body).URL r.Body =
      some created)
    (harch : w.archiveDo { created with Header := r.Header } = some archiveResp) :
    handleRequest rt w s r = .ok
      { request := rewritten r
        response :=
          { StatusCode := (checkLegacy w s (rewritten r) r.Body archiveResp).1.StatusCode
            Header := finalizeHeaders rt (rewritten r)
              (typedHeader rt s (rewritten r) (checkLegacy w s (rewritten r) r.Body archiveResp).1)
            Body := (checkLegacy w s (rewritten r) r.Body archiveResp).1.Body }
        trace := Event.archive { created with Header := r.Header } ::
          (checkLegacy w s (rewritten r) r.Body archiveResp).2 } := by
  have hnew2 : w.newRequest (gamezipRequest s (rewritten r) r.Body).Method
      (gamezipRequest s (rewritten r) r.Body).URL
      (gamezipRequest s (rewritten r) r.Body).Body = some created := hnew
  have harch2 : w.archiveDo
      { created with Header := (gamezipRequest s (rewritten r) r.Body).Header } =
      some archiveResp := harch
  have hcall : (w.callArchive
      { created with Header := (gamezipRequest s (rewritten r) r.Body).Header }).1 =
      some archiveResp := harch2
  simp only [handleRequest, hnew2, hcall, typedHeader]
  rfl

/-- The header keys `setContentType` may touch are Content-Type and
Content-Encoding: every other key keeps its values. -/
theorem typedHeader_other (rt : Runtime) (s : ServerSettings) (r : Request) (resp : Response)
    (k : String) (h1 : k ≠ "Content-Type") (h2 : k ≠ "Content-Encoding") :
    (typedHeader rt s r resp).values k = resp.Header.values k := by
  simp only [typedHeader, setContentType, Option.getD_some, gzipScan_eq]
  split_ifs <;>
    simp [Header.Set, canonical_contentType, canonical_contentEncoding, h1, h2]

/-- The header keys the finalizing step may touch are
Access-Control-Allow-Origin, Connection and Keep-Alive. -/
theorem finalizeHeaders_other (rt : Runtime) (r : Request) (h : Header) (k : String)
    (h1 : k ≠ "Access-Control-Allow-Origin") (h2 : k ≠ "Connection")
    (h3 : k ≠ "Keep-Alive") :
    (finalizeHeaders rt r h).values k = h.values k := by
  simp only [finalizeHeaders]
  split_ifs <;>
    simp [Header.Set, canonical_allowOrigin, canonical_connection, canonical_keepAlive,
      h1, h2, h3]

/-- On a host that contains no colon, `stripPort` removes a `:port` suffix
and leaves a host without one as it is. -/
theorem stripPort_colon_free (h port : String) (hfree : ':' ∉ h.data) :
    stripPort (h ++ ":" ++ port) = h ∧ stripPort h = h := by
  have key : ∀ (l tl : List Char), ':' ∉ l →
      (splitChars ':' (l ++ ':' :: tl)).head? = some l ∧ (splitChars ':' l).head? = some l := by
    intro l tl
    induction l with
    | nil => intro _; simp [splitChars]
    | cons c cs ih =>
      intro hc
      have hc1 : c ≠ ':' := fun e => hc (by simp [e])
      have hc2 : ':' ∉ cs := fun e => hc (by simp [e])
      obtain ⟨i1, i2⟩ := ih hc2
      constructor
      · simp only [List.cons_append, splitChars, hc1, if_false]
        cases hsp : splitChars ':' (cs ++ ':' :: tl) with
        | nil => simp [hsp] at i1
        | cons a b => simp [hsp] at i1; simp [i1]
      · simp only [splitChars, hc1, if_false]
        cases hsp : splitChars ':' cs with
        | nil => simp [hsp] at i2
        | cons a b => simp [hsp] at i2; simp [i2]
  obtain ⟨k1, k2⟩ := key h.data port.data hfree
  constructor
  · have hd : (h ++ ":" ++ port).data = h.data ++ ':' :: port.data := by
      simp [String.data_append]
    simp only [stripPort, Split, hd]
    cases hsp : splitChars ':' (h.data ++ ':' :: port.data) with
    | nil => simp [hsp] at k1
    | cons a b => simp [hsp] at k1; simp [k1]
  · simp only [stripPort, Split]
    cases hsp : splitChars ':' h.data with
    | nil => simp [hsp] at k2
    | cons a b => simp [hsp] at k2; simp [k2]

/-- What stands after the block "Check Legacy", by cases. -/
theorem checkLegacy_eq (w : World) (s : ServerSettings) (r : Request) (contents : List UInt8)
    (proxyResp : Response) :
    checkLegacy w s r contents proxyResp =
      (if proxyResp.StatusCode < 400 then (proxyResp, [])
       else if s.HandleLegacyRequests = true then
         (w.ServeLegacy (legacyRequest r contents),
           [Event.internalLegacy (legacyRequest r contents)])
       else
         ((w.externalDo (legacyRequest r contents)).getD proxyResp,
           [Event.externalLegacy (legacyRequest r contents)])) := by
  by_cases hst : proxyResp.StatusCode < 400
  · have hge : ¬ proxyResp.StatusCode ≥ 400 := by omega
    simp [checkLegacy, hst, hge]
  · have hge : proxyResp.StatusCode ≥ 400 := by omega
    cases hflag : s.HandleLegacyRequests
    · cases hext : w.externalDo (legacyRequest r contents) <;>
        simp [checkLegacy, hst, hge, hflag, hext, World.callExternal]
    · simp [checkLegacy, hst, hge, hflag, World.callServeLegacy]

/-! ## Theorems on `handleRequest` -/

/-- C4: when the archive returned a response, `handleRequest` returns, and
the archive status alone decides the legacy attempts.  Below 400 no legacy
tier is called and the archive response is served.  At 400 or above exactly
one legacy tier is called with the legacy request: `ServeLegacy` when
`HandleLegacyRequests` is true, whose recorded response is served, and the
external server when it is false, whose response is served unless that call
failed.  The response returned is the served one after `setContentType` and
the finalizing step. -/
theorem handleRequest_fallback_attempts (rt : Runtime) (w : World) (s : ServerSettings)
    (r : Request) (created : Request) (archiveResp : Response)
    (hnew : w.newRequest r.Method (gamezipRequest s (rewritten r) r.Body).URL r.Body =
      some created)
    (harch : w.archiveDo { created with Header := r.Header } = some archiveResp) :
    ∃ out, handleRequest rt w s r = .ok out ∧
      legacyAttempts out.trace = (if archiveResp.StatusCode < 400 then 0 else 1) ∧
      out.trace = Event.archive { created with Header := r.Header } ::
        (if archiveResp.StatusCode < 400 then []
         else if s.HandleLegacyRequests = true then
           [Event.internalLegacy (legacyRequest (rewritten r) r.Body)]
         else [Event.externalLegacy (legacyRequest (rewritten r) r.Body)]) ∧
      ∃ served,
        served =
          (if archiveResp.StatusCode < 400 then archiveResp
           else if s.HandleLegacyRequests = true then
             w.ServeLegacy (legacyRequest (rewritten r) r.Body)
           else (w.externalDo (legacyRequest (rewritten r) r.Body)).getD archiveResp) ∧
        out.response.StatusCode = served.StatusCode ∧
        out.response.Body = served.Body ∧
        out.response.Header =
          finalizeHeaders rt (rewritten r) (typedHeader rt s (rewritten r) served) := by
  have hcl := checkLegacy_eq w s (rewritten r) r.Body archiveResp
  refine ⟨_, handleRequest_ok rt w s r created archiveResp hnew harch, ?_, ?_, _, rfl, ?_, ?_, ?_⟩
  · simp only [hcl]
    by_cases hst : archiveResp.StatusCode < 400
    · simp [legacyAttempts, hst, Event.isLegacy]
    · cases hflag : s.HandleLegacyRequests <;>
        simp [legacyAttempts, hst, hflag, Event.isLegacy]
  · simp only [hcl]
    by_cases hst : archiveResp.StatusCode < 400
    · simp [hst]
    · cases hflag : s.HandleLegacyRequests <;> simp [hst, hflag]
  · simp only [hcl]
    by_cases hst : archiveResp.StatusCode < 400
    · simp [hst]
    · cases hflag : s.HandleLegacyRequests <;> simp [hst, hflag]
  · simp only [hcl]
    by_cases hst : archiveResp.StatusCode < 400
    · simp [hst]
    · cases hflag : s.HandleLegacyRequests <;> simp [hst, hflag]
  · simp only [hcl]
    by_cases hst : archiveResp.StatusCode < 400
    · simp [hst]
    · cases hflag : s.HandleLegacyRequests <;> simp [hst, hflag]

/-- C4 at a request the archive answers with 404, in internal mode: one
legacy call, the in-process one, and the response served is the one
`ServeLegacy` recorded. -/
theorem handleRequest_fallback_attempts_witness :
    ∃ out, handleRequest unixRuntime (sampleWorld 404) internalSettings
        (getRequest "game.example" "/missing") = .ok out ∧
      legacyAttempts out.trace = 1 ∧
      out.trace.map Event.isInternal = [false, true] ∧
      out.response.StatusCode = 200 ∧
      out.response.Header.values "Server" = some ["legacy"] := by
  obtain ⟨out, h1, h2, h3, served, hs, h4, _, h6⟩ :=
    handleRequest_fallback_attempts unixRuntime (sampleWorld 404) internalSettings
      (getRequest "game.example" "/missing") _ (responseWith 404 "Server" "zipfs") rfl rfl
  subst hs
  refine ⟨out, h1, ?_, ?_, ?_, ?_⟩
  · rw [h2]; decide
  · rw [h3]; decide
  · rw [h4]; decide
  · rw [h6]; decide

/-- C5, as stated, fails: the archive answers 404 with the single header
`Server`, the external legacy server cannot be reached, and the response
`handleRequest` returns carries `Access-Control-Allow-Origin: *`, which the
archive response did not. -/
theorem handleRequest_external_failure_counterexample :
    (responseWith 404 "Server" "zipfs").StatusCode ≥ 400 ∧
    sampleSettings.HandleLegacyRequests = false ∧
    (sampleWorld 404).externalDo
      (legacyRequest (rewritten (getRequest "game.example" "/missing")) []) = none ∧
    (responseWith 404 "Server" "zipfs").Header.values "Access-Control-Allow-Origin" = none ∧
    ∃ out, handleRequest unixRuntime (sampleWorld 404) sampleSettings
        (getRequest "game.example" "/missing") = .ok out ∧
      out.response.Header.values "Access-Control-Allow-Origin" = some ["*"] ∧
      out.response.Header ≠ (responseWith 404 "Server" "zipfs").Header := by
  refine ⟨by decide, rfl, rfl, by decide, _, rfl, by decide, ?_⟩
  intro h
  have hv := congrArg (fun x => x.values "Access-Control-Allow-Origin") h
  revert hv
  decide

/-- C5, amended: when the archive status is 400 or above, legacy requests go
to the external server and that call fails, `handleRequest` returns the
archive response with its status and body, and with the archive headers as
`setContentType` and the finalizing step leave them; every header other than
Content-Type, Content-Encoding, Access-Control-Allow-Origin, Connection and
Keep-Alive is as the archive returned it. -/
theorem handleRequest_external_failure (rt : Runtime) (w : World) (s : ServerSettings)
    (r : Request) (created : Request) (archiveResp : Response)
    (hnew : w.newRequest r.Method (gamezipRequest s (rewritten r) r.Body).URL r.Body =
      some created)
    (harch : w.archiveDo { created with Header := r.Header } = some archiveResp)
    (hstatus : archiveResp.StatusCode ≥ 400)
    (hflag : s.HandleLegacyRequests = false)
    (hfail : w.externalDo (legacyRequest (rewritten r) r.Body) = none) :
    ∃ out, handleRequest rt w s r = .ok out ∧
      out.response.StatusCode = archiveResp.StatusCode ∧
      out.response.Body = archiveResp.Body ∧
      out.response.Header =
        finalizeHeaders rt (rewritten r) (typedHeader rt s (rewritten r) archiveResp) ∧
      ∀ k, k ∉ ["Content-Type", "Content-Encoding", "Access-Control-Allow-Origin",
          "Connection", "Keep-Alive"] →
        out.response.Header.values k = archiveResp.Header.values k := by
  have hcl : checkLegacy w s (rewritten r) r.Body archiveResp =
      (archiveResp, [Event.externalLegacy (legacyRequest (rewritten r) r.Body)]) := by
    simp [checkLegacy, hstatus, hflag, hfail, World.callExternal]
  refine ⟨_, handleRequest_ok rt w s r created archiveResp hnew harch, ?_, ?_, ?_, ?_⟩
  · simp only [hcl]
  · simp only [hcl]
  · simp only [hcl]
  · intro k hk
    simp only [List.mem_cons, List.mem_singleton, List.not_mem_nil, or_false, not_or] at hk
    obtain ⟨k1, k2, k3, k4, k5⟩ := hk
    simp only [hcl]
    rw [finalizeHeaders_other rt _ _ k k3 k4 k5, typedHeader_other rt s _ _ k k1 k2]

/-- C5, amended, at a request the archive answers with 404 while the
external legacy server cannot be reached. -/
theorem handleRequest_external_failure_witness :
    ∃ out, handleRequest unixRuntime (sampleWorld 404) sampleSettings
        (getRequest "game.example" "/missing") = .ok out ∧
      out.response.StatusCode = 404 ∧
      out.response.Body = [] ∧
      out.response.Header.values "Server" = some ["zipfs"] := by
  obtain ⟨out, h1, h2, h3, _, h5⟩ :=
    handleRequest_external_failure unixRuntime (sampleWorld 404) sampleSettings
      (getRequest "game.example" "/missing") _ (responseWith 404 "Server" "zipfs")
      rfl rfl (by decide) rfl rfl
  refine ⟨out, h1, h2, h3, ?_⟩
  rw [h5 "Server" (by decide)]
  decide

/-- C6, as stated, fails: for a request without a Connection header and a
response that carries `Connection: Keep-Alive` and `Keep-Alive: timeout=30`,
both headers are still set after the finalizing step. -/
theorem finalizeHeaders_unset_counterexample :
    (getRequest "game.example" "/a").Header.Get "Connection" = "" ∧
    (finalizeHeaders unixRuntime (getRequest "game.example" "/a")
      ((Header.empty.Set "Connection" "Keep-Alive").Set "Keep-Alive" "timeout=30")).values
        "Connection" = some ["Keep-Alive"] ∧
    (finalizeHeaders unixRuntime (getRequest "game.example" "/a")
      ((Header.empty.Set "Connection" "Keep-Alive").Set "Keep-Alive" "timeout=30")).values
        "Keep-Alive" = some ["timeout=30"] := by
  decide

/-- C6, amended: the finalizing step leaves Access-Control-Allow-Origin with
the single value `*`; when the Connection header of the request lowercases to
`keep-alive` it leaves Connection with the single value `Keep-Alive` and
Keep-Alive with the single value `timeout=5; max=100`; otherwise it leaves
Connection and Keep-Alive as they were in the response, unset when they were
unset. -/
theorem finalizeHeaders_sets (rt : Runtime) (r : Request) (h : Header) :
    (finalizeHeaders rt r h).values "Access-Control-Allow-Origin" = some ["*"] ∧
    (finalizeHeaders rt r h).values "Connection" =
      (if ToLower rt (r.Header.Get "Connection") = "keep-alive" then some ["Keep-Alive"]
       else h.values "Connection") ∧
    (finalizeHeaders rt r h).values "Keep-Alive" =
      (if ToLower rt (r.Header.Get "Connection") = "keep-alive" then
        some ["timeout=5; max=100"]
       else h.values "Keep-Alive") := by
  simp only [finalizeHeaders]
  split_ifs <;>
    simp [Header.Set, canonical_allowOrigin, canonical_connection, canonical_keepAlive]

/-- C7, as stated, fails: for a request without a Connection header and a
response whose Connection header has the two values `a` and `b`, the header
still has both values after two applications of the finalizing step, and
Keep-Alive has none. -/
theorem finalizeHeaders_single_value_counterexample :
    (getRequest "game.example" "/a").Header.Get "Connection" = "" ∧
    (finalizeHeaders unixRuntime (getRequest "game.example" "/a")
      (finalizeHeaders unixRuntime (getRequest "game.example" "/a")
        twoConnectionValues)).values "Connection" = some ["a", "b"] ∧
    (finalizeHeaders unixRuntime (getRequest "game.example" "/a")
      (finalizeHeaders unixRuntime (getRequest "game.example" "/a")
        twoConnectionValues)).values "Keep-Alive" = none := by
  decide

/-- C7, amended: the finalizing step is idempotent on every header map, and
after two applications the headers it writes hold one value each:
Access-Control-Allow-Origin always, Connection and Keep-Alive when the request
asks for keep-alive; otherwise these two hold the values they had in the
response, however many. -/
theorem finalizeHeaders_idempotent (rt : Runtime) (r : Request) (h : Header) :
    finalizeHeaders rt r (finalizeHeaders rt r h) = finalizeHeaders rt r h ∧
    (finalizeHeaders rt r (finalizeHeaders rt r h)).values "Access-Control-Allow-Origin" =
      some ["*"] ∧
    (finalizeHeaders rt r (finalizeHeaders rt r h)).values "Connection" =
      (if ToLower rt (r.Header.Get "Connection") = "keep-alive" then some ["Keep-Alive"]
       else h.values "Connection") ∧
    (finalizeHeaders rt r (finalizeHeaders rt r h)).values "Keep-Alive" =
      (if ToLower rt (r.Header.Get "Connection") = "keep-alive" then
        some ["timeout=5; max=100"]
       else h.values "Keep-Alive") := by
  have hidem : finalizeHeaders rt r (finalizeHeaders rt r h) = finalizeHeaders rt r h := by
    ext k : 2
    simp only [finalizeHeaders]
    split_ifs <;>
      simp only [Header.Set, canonical_allowOrigin, canonical_connection, canonical_keepAlive] <;>
      split_ifs <;> rfl
  rw [hidem]
  refine ⟨rfl, ?_⟩
  simp only [finalizeHeaders]
  split_ifs <;>
    simp [Header.Set, canonical_allowOrigin, canonical_connection, canonical_keepAlive]

/-- C8 fails on the code: when the archive service cannot be reached, or the
archive request cannot be built, `handleRequest` returns no response: it
dereferences the nil response, respectively the nil request. -/
theorem handleRequest_nil_dereference :
    handleRequest unixRuntime archiveDownWorld sampleSettings
      (getRequest "game.example" "/a.png") = .error Fault.nilResponse ∧
    handleRequest unixRuntime badRequestWorld sampleSettings
      (getRequest "game.example" "/a.png") = .error Fault.nilRequest :=
  ⟨rfl, rfl⟩

/-- C9 fails on the code: the host is cut at its first colon, so the
bracketed IPv6 literal `[::1]`, with or without a port, becomes `[`. -/
theorem stripPort_ipv6_literal :
    stripPort "[::1]:8080" = "[" ∧ stripPort "[::1]" = "[" ∧
    ∃ out, handleRequest unixRuntime (sampleWorld 200) sampleSettings
        (getRequest "[::1]:8080" "/a.png") = .ok out ∧
      out.request.URL.Host = "[" := by
  refine ⟨by decide, by decide, _, rfl, by decide⟩

end FlashpointGameServer
